import Mathlib

/-!
Verification of the voice-allocation and message-routing core of the
midi_fundsp repository, embedded shallowly from `src/io.rs`
(`MonoPlayer`, `StereoPlayer`, `SynthMsg`, the warm-up and message loops)
and `src/lib.rs` (`SharedMidiState`).

Floating-point control values are modelled as rationals.  The two external
numeric conversions — the MIDI-pitch-to-frequency table `midi_hz` and the
pitch-bend factor `pitch_bend_factor` — are opaque library functions in the
source, so the embedding takes them as explicit function parameters
(`hz`, `bf`); every theorem holds for an arbitrary choice.  Render
functions (`SynthFunc` boxed closures) are identified by an index into the
program table, which is all the pool logic observes of them.
-/

/-- Embeds `SharedMidiState` (src/lib.rs): the four per-voice control
signals `pitch`, `velocity`, `control` (the gate) and `pitch_bend`. -/
structure SharedMidiState where
  pitch : ℚ
  velocity : ℚ
  control : ℚ
  pitch_bend : ℚ
deriving DecidableEq

/-- Embeds `impl Default for SharedMidiState`: pitch, velocity and control
default to 0, the bend multiplier to `shared(1.0)`. -/
def SharedMidiState.default : SharedMidiState :=
  { pitch := 0, velocity := 0, control := 0, pitch_bend := 1 }

/-- Embeds `SharedMidiState::on`: store `midi_hz(pitch)`, `velocity / 127`
(`MAX_MIDI_VALUE = 127`), and gate `+1`.  `hz` stands for the external
`midi_hz` conversion. -/
def SharedMidiState.on (hz : ℕ → ℚ) (s : SharedMidiState) (pitch velocity : ℕ) :
    SharedMidiState :=
  { s with pitch := hz pitch, velocity := (velocity : ℚ) / 127, control := 1 }

/-- Embeds `SharedMidiState::off`: gate to `-1`. -/
def SharedMidiState.off (s : SharedMidiState) : SharedMidiState :=
  { s with control := -1 }

/-- Embeds `SharedMidiState::bend`: store `pitch_bend_factor(bend)`;
`bf` stands for the external `pitch_bend_factor`. -/
def SharedMidiState.bend (bf : ℕ → ℚ) (s : SharedMidiState) (b : ℕ) :
    SharedMidiState :=
  { s with pitch_bend := bf b }

/-- The subset of `MidiMsg` cases distinguished by `MonoPlayer::decode`
(src/io.rs); `other` covers every arm the source ignores with `_ => {}`. -/
inductive MidiMsg where
  | noteOn (note : ℕ) (velocity : ℕ)
  | noteOff (note : ℕ) (velocity : ℕ)
  | pitchBend (bend : ℕ)
  | programChange (program : ℕ)
  | allNotesOff
  | allSoundOff
  | systemReset
  | other
deriving DecidableEq

/-- Embeds `RelayedMessage` (src/io.rs). -/
inductive RelayedMessage where
  | synthChange
  | systemReset
deriving DecidableEq

/-- Embeds `Speaker` (src/io.rs). -/
inductive Speaker where
  | left
  | right
  | both
deriving DecidableEq

/-- Embeds `SynthMsg` (src/io.rs): a MIDI message with a routing tag. -/
structure SynthMsg where
  msg : MidiMsg
  speaker : Speaker
deriving DecidableEq

/-- Embeds `MonoPlayer<N>` (src/io.rs).  The `states` array is a
function on ℕ; only indices `< N` are touched by the operations.  The
`synth_func` box is identified by its program-table index, and the
`Arc<Mutex<ProgramTable>>` by the table function itself. -/
@[ext]
structure MonoPlayer (N : ℕ) where
  states : ℕ → SharedMidiState
  next : ℕ
  pitch2state : ℕ → Option ℕ
  recent_pitches : ℕ → Option ℕ
  synth_func : ℕ
  master_volume : ℚ
  program_table : ℕ → ℕ

/-- Embeds `MonoPlayer::new`: default voice states, cursor 0, empty maps,
synth function `program_table[0]`, master volume `shared(1.0)`. -/
def MonoPlayer.new (N : ℕ) (table : ℕ → ℕ) : MonoPlayer N :=
  { states := fun _ => SharedMidiState.default
    next := 0
    pitch2state := fun _ => none
    recent_pitches := fun _ => none
    synth_func := table 0
    master_volume := 1
    program_table := table }

/-- Embeds the scan `for i in self.next.iter()` inside
`MonoPlayer::find_next_state`: starting at offset `j` from the cursor
`next` and with `rem` ring positions left to inspect, return the first
index `(next + j) % N` whose recent pitch is `None`. -/
def searchIdle (N : ℕ) (recent : ℕ → Option ℕ) (next : ℕ) : ℕ → ℕ → Option ℕ
  | _, 0 => none
  | j, rem + 1 =>
    if recent ((next + j) % N) = none then some ((next + j) % N)
    else searchIdle N recent next (j + 1) rem

variable {N : ℕ}

/-- Embeds `MonoPlayer::release`: clear the slot's recent pitch and gate
its voice off. -/
def MonoPlayer.release (p : MonoPlayer N) (i : ℕ) : MonoPlayer N :=
  { p with
    recent_pitches := Function.update p.recent_pitches i none
    states := Function.update p.states i (p.states i).off }

/-- Embeds `MonoPlayer::claim_state`: return the slot index and advance
the round-robin cursor to the slot plus one, mod `N`. -/
def MonoPlayer.claim_state (p : MonoPlayer N) (state : ℕ) : ℕ × MonoPlayer N :=
  (state, { p with next := (state + 1) % N })

/-- Embeds `MonoPlayer::find_next_state`: claim the first idle slot in
cursor order; if none is idle, steal the slot at the cursor — clear the
pitch-map entry of its recent pitch (the source `unwrap`s it; the `none`
fallback mirrors the unreachable panic), release it, and claim it. -/
def MonoPlayer.find_next_state (p : MonoPlayer N) : ℕ × MonoPlayer N :=
  match searchIdle N p.recent_pitches p.next 0 N with
  | some i => p.claim_state i
  | none =>
    match p.recent_pitches p.next with
    | some old =>
      let p1 : MonoPlayer N :=
        { p with pitch2state := Function.update p.pitch2state old none }
      (p1.release p.next).claim_state p.next
    | none => (p.next, p)

/-- Embeds `MonoPlayer::on`: un-mute the master volume, pick a slot with
`find_next_state`, sound the note there and record the pitch in both
maps. -/
def MonoPlayer.on (hz : ℕ → ℚ) (p : MonoPlayer N) (pitch velocity : ℕ) :
    MonoPlayer N :=
  let p0 : MonoPlayer N := { p with master_volume := 1 }
  let fr := p0.find_next_state
  let selected := fr.1
  let p1 := fr.2
  { p1 with
    states := Function.update p1.states selected
      ((p1.states selected).on hz pitch velocity)
    pitch2state := Function.update p1.pitch2state pitch (some selected)
    recent_pitches := Function.update p1.recent_pitches selected (some pitch) }

/-- Embeds `MonoPlayer::off`: look the pitch up in the pitch map; release
the slot only when its recent pitch still equals the pitch; clear the
pitch-map entry unconditionally. -/
def MonoPlayer.off (p : MonoPlayer N) (pitch : ℕ) : MonoPlayer N :=
  match p.pitch2state pitch with
  | none => p
  | some i =>
    let p1 := if p.recent_pitches i = some pitch then p.release i else p
    { p1 with pitch2state := Function.update p1.pitch2state pitch none }

/-- Embeds `MonoPlayer::all_sounds_off`: zero the master volume. -/
def MonoPlayer.all_sounds_off (p : MonoPlayer N) : MonoPlayer N :=
  { p with master_volume := 0 }

/-- Embeds `MonoPlayer::change_synth`: hard-mute, then install the new
synth function. -/
def MonoPlayer.change_synth (p : MonoPlayer N) (new_synth : ℕ) : MonoPlayer N :=
  let p1 := p.all_sounds_off
  { p1 with synth_func := new_synth }

/-- Embeds `MonoPlayer::bend`: apply the bend to every slot of the
array. -/
def MonoPlayer.bend (bf : ℕ → ℚ) (p : MonoPlayer N) (b : ℕ) : MonoPlayer N :=
  { p with
    states := fun i => if i < N then (p.states i).bend bf b else p.states i }

/-- Embeds `MonoPlayer::release_all`: release slots `0..N` in order. -/
def MonoPlayer.release_all (p : MonoPlayer N) : MonoPlayer N :=
  (List.range N).foldl (fun q i => q.release i) p

/-- Embeds `MonoPlayer::sound_at`: the render function applied at slot
`i` is the single pool-wide `synth_func`, paired with that slot's
state. -/
def MonoPlayer.sound_at (p : MonoPlayer N) (i : ℕ) : ℕ × SharedMidiState :=
  (p.synth_func, p.states i)

/-- Embeds `MonoPlayer::decode` (src/io.rs): dispatch one MIDI message,
returning the new pool and the relayed result if any.  A `NoteOn` with
velocity 0 is routed to `off`. -/
def MonoPlayer.decode (hz bf : ℕ → ℚ) (p : MonoPlayer N) (msg : MidiMsg) :
    MonoPlayer N × Option RelayedMessage :=
  match msg with
  | .noteOn note velocity =>
    if velocity = 0 then (p.off note, none) else (p.on hz note velocity, none)
  | .noteOff note _ => (p.off note, none)
  | .pitchBend b => (p.bend bf b, none)
  | .programChange program =>
    (p.change_synth (p.program_table program), some RelayedMessage.synthChange)
  | .allNotesOff => (p.release_all, none)
  | .allSoundOff => (p.all_sounds_off, none)
  | .systemReset => (p, some RelayedMessage.systemReset)
  | .other => (p, none)

/-- Embeds `StereoPlayer<N>` (src/io.rs): the two pools
`sounds[Speaker::Left.i()]` and `sounds[Speaker::Right.i()]`. -/
@[ext]
structure StereoPlayer (N : ℕ) where
  left : MonoPlayer N
  right : MonoPlayer N

/-- Embeds `StereoPlayer::new`: both pools share the program table. -/
def StereoPlayer.new (N : ℕ) (table : ℕ → ℕ) : StereoPlayer N :=
  { left := MonoPlayer.new N table, right := MonoPlayer.new N table }

/-- Embeds `Option::or` as used for the `Both` routing result. -/
def orOpt (a b : Option RelayedMessage) : Option RelayedMessage :=
  match a with
  | some x => some x
  | none => b

/-- Embeds `StereoPlayer::decode`: `Left`/`Right` dispatch to one pool;
`Both` dispatches to the left pool, then the right, combining the relayed
results with `Option::or`. -/
def StereoPlayer.decode (hz bf : ℕ → ℚ) (sp : StereoPlayer N)
    (speaker : Speaker) (msg : MidiMsg) : StereoPlayer N × Option RelayedMessage :=
  match speaker with
  | .left =>
    let r := sp.left.decode hz bf msg
    ({ sp with left := r.1 }, r.2)
  | .right =>
    let r := sp.right.decode hz bf msg
    ({ sp with right := r.1 }, r.2)
  | .both =>
    let rl := sp.left.decode hz bf msg
    let rr := sp.right.decode hz bf msg
    ({ left := rl.1, right := rr.1 }, orOpt rl.2 rr.2)

/-- Embeds `StereoPlayer::warm_up` (src/io.rs): `N` NoteOn/NoteOff pairs
at note 0, velocity 0, routed to both speakers. -/
def warm_up (N : ℕ) : List SynthMsg :=
  (List.replicate N
    ([⟨MidiMsg.noteOn 0 0, Speaker.both⟩, ⟨MidiMsg.noteOff 0 0, Speaker.both⟩] :
      List SynthMsg)).flatten

/-- Applies a list of queued `SynthMsg`s to a `StereoPlayer` in order,
discarding the relayed results: the state effect of the message loop. -/
def apply_msgs (hz bf : ℕ → ℚ) (sp : StereoPlayer N) (msgs : List SynthMsg) :
    StereoPlayer N :=
  msgs.foldl (fun s m => (s.decode hz bf m.speaker m.msg).1) sp

/-- Embeds `StereoPlayer::handle_messages`: pop queued messages one at a
time, apply each, and return as soon as one decodes to a relayed result.
The queue is modelled as a list; `none` means the source loop would spin
forever waiting for more messages. -/
def StereoPlayer.handle_messages (hz bf : ℕ → ℚ) :
    StereoPlayer N → List SynthMsg →
      Option (StereoPlayer N × RelayedMessage × List SynthMsg)
  | _, [] => none
  | sp, m :: rest =>
    match sp.decode hz bf m.speaker m.msg with
    | (sp1, some r) => some (sp1, r, rest)
    | (sp1, none) => handle_messages hz bf sp1 rest

/-- `handle_messages` consumes at least one message when it returns. -/
theorem handle_messages_length (hz bf : ℕ → ℚ) :
    ∀ (msgs : List SynthMsg) (sp sp' : StereoPlayer N) (r : RelayedMessage)
      (rest : List SynthMsg),
      StereoPlayer.handle_messages hz bf sp msgs = some (sp', r, rest) →
      rest.length < msgs.length := by
  intro msgs
  induction msgs with
  | nil => intro sp sp' r rest h; simp [StereoPlayer.handle_messages] at h
  | cons m t ih =>
    intro sp sp' r rest h
    rw [StereoPlayer.handle_messages] at h
    rcases hd : sp.decode hz bf m.speaker m.msg with ⟨sp1, ro⟩
    rw [hd] at h
    cases ro with
    | some rr =>
      simp only at h
      injection h with h
      injection h with h1 h2
      injection h2 with h2 h3
      subst h3
      simp
    | none =>
      simp only at h
      exact Nat.lt_trans (ih sp1 sp' r rest h) (Nat.lt_succ_self _)

/-- Embeds the `while !done` loop of `StereoPlayer::run_synth`: each
iteration opens and plays one stream, then handles messages until one is
relayed; a `SynthChange` re-enters the loop, a `SystemReset` ends it.
Returns the number of streams opened and, when the loop ends normally,
the final player and the unconsumed queue suffix; `none` when the
modelled queue runs dry (the source would spin). -/
def StereoPlayer.run_synth (hz bf : ℕ → ℚ) (sp : StereoPlayer N)
    (msgs : List SynthMsg) : ℕ × Option (StereoPlayer N × List SynthMsg) :=
  match h : StereoPlayer.handle_messages hz bf sp msgs with
  | none => (1, none)
  | some (sp', RelayedMessage.systemReset, rest) => (1, some (sp', rest))
  | some (sp', RelayedMessage.synthChange, rest) =>
    let r := StereoPlayer.run_synth hz bf sp' rest
    (r.1 + 1, r.2)
termination_by msgs.length
decreasing_by exact handle_messages_length hz bf msgs sp sp' RelayedMessage.synthChange rest h

/-- C4: decoding a `NoteOn` with velocity 0 is exactly decoding a
`NoteOff` for the same pitch — the guarded `off` path runs, no slot is
claimed, and no result is relayed. -/
theorem noteOn_velocity_zero_is_noteOff (hz bf : ℕ → ℚ) (p : MonoPlayer N)
    (n v : ℕ) :
    p.decode hz bf (MidiMsg.noteOn n 0) = p.decode hz bf (MidiMsg.noteOff n v) ∧
    p.decode hz bf (MidiMsg.noteOn n 0) = (p.off n, none) := by
  exact ⟨rfl, rfl⟩

/-- C10: a fresh voice state has pitch 0, velocity 0, bend multiplier 1
and gate 0 — a third gate value distinct from the sounding `+1` and the
released `-1`, which only a first `on` or `off` installs; every slot of a
fresh pool is in that state. -/
theorem fresh_voice_gate_is_zero (M : ℕ) (table : ℕ → ℕ) (hz : ℕ → ℚ) :
    SharedMidiState.default =
      { pitch := 0, velocity := 0, control := 0, pitch_bend := 1 } ∧
    (∀ i, (MonoPlayer.new M table).states i = SharedMidiState.default) ∧
    ((SharedMidiState.default.control ≠ 1) ∧ (SharedMidiState.default.control ≠ -1)) ∧
    (∀ s p v, (SharedMidiState.on hz s p v).control = 1) ∧
    (∀ s, (SharedMidiState.off s).control = -1) := by
  refine ⟨rfl, fun i => rfl, ⟨by decide, by decide⟩, fun s p v => rfl, fun s => rfl⟩

/-- If offset `t` (within the remaining ring positions) is the first idle
offset, the scan finds exactly the slot `(next + j + t) % N`. -/
theorem searchIdle_found (N : ℕ) (recent : ℕ → Option ℕ) (next : ℕ) :
    ∀ (rem j t : ℕ), t < rem →
      recent ((next + (j + t)) % N) = none →
      (∀ u, u < t → recent ((next + (j + u)) % N) ≠ none) →
      searchIdle N recent next j rem = some ((next + (j + t)) % N) := by
  intro rem
  induction rem with
  | zero => intro j t ht _ _; exact absurd ht (Nat.not_lt_zero t)
  | succ rem ih =>
    intro j t ht hnone hmin
    simp only [searchIdle]
    cases t with
    | zero =>
      simp only [Nat.add_zero] at hnone
      rw [if_pos hnone]
      simp
    | succ t' =>
      have h0 : recent ((next + j) % N) ≠ none := by
        have := hmin 0 (Nat.succ_pos t')
        simpa using this
      rw [if_neg h0]
      have hnone' : recent ((next + ((j + 1) + t')) % N) = none := by
        have heq : (j + 1) + t' = j + (t' + 1) := by omega
        rw [heq]; exact hnone
      have hmin' : ∀ u, u < t' → recent ((next + ((j + 1) + u)) % N) ≠ none := by
        intro u hu
        have heq : (j + 1) + u = j + (u + 1) := by omega
        rw [heq]; exact hmin (u + 1) (by omega)
      have hres := ih (j + 1) t' (by omega) hnone' hmin'
      rw [hres]
      have heq : (j + 1) + t' = j + (t' + 1) := by omega
      rw [heq]

/-- If no remaining ring position is idle, the scan fails. -/
theorem searchIdle_exhausted (N : ℕ) (recent : ℕ → Option ℕ) (next : ℕ) :
    ∀ (rem j : ℕ), (∀ t, t < rem → recent ((next + (j + t)) % N) ≠ none) →
      searchIdle N recent next j rem = none := by
  intro rem
  induction rem with
  | zero => intro j _; rfl
  | succ rem ih =>
    intro j h
    simp only [searchIdle]
    rw [if_neg (by simpa using h 0 (Nat.succ_pos rem))]
    refine ih (j + 1) (fun t ht => ?_)
    have heq : (j + 1) + t = j + (t + 1) := by omega
    rw [heq]
    exact h (t + 1) (by omega)

/-- C1: `on(pitch, velocity)` claims the first slot at or after the
round-robin cursor whose recent pitch is `None`, setting the cursor to
the claimed index plus one mod `N`; if every slot has a recent pitch, it
steals the slot at the pre-scan cursor — clearing that slot's old
pitch-map entry, releasing it — and advances the cursor by one.  Either
way the claimed slot receives the note's frequency, gain `velocity/127`
and gate `+1`, the pitch map records `pitch → slot`, the slot's recent
pitch becomes `pitch`, and the master volume is set to 1. -/
theorem on_claims_slot (hz : ℕ → ℚ) (p : MonoPlayer N) (pitch velocity : ℕ)
    (hN : 0 < N) (hnext : p.next < N) :
    (∀ t i, t < N → p.recent_pitches ((p.next + t) % N) = none →
      (∀ u, u < t → p.recent_pitches ((p.next + u) % N) ≠ none) →
      i = (p.next + t) % N →
      p.on hz pitch velocity =
        { states := Function.update p.states i ((p.states i).on hz pitch velocity)
          next := (i + 1) % N
          pitch2state := Function.update p.pitch2state pitch (some i)
          recent_pitches := Function.update p.recent_pitches i (some pitch)
          synth_func := p.synth_func
          master_volume := 1
          program_table := p.program_table }) ∧
    ((∀ t, t < N → p.recent_pitches ((p.next + t) % N) ≠ none) →
      ∃ old, p.recent_pitches p.next = some old ∧
        p.on hz pitch velocity =
          { states := Function.update p.states p.next
              (((p.states p.next).off).on hz pitch velocity)
            next := (p.next + 1) % N
            pitch2state := Function.update
              (Function.update p.pitch2state old none) pitch (some p.next)
            recent_pitches := Function.update p.recent_pitches p.next (some pitch)
            synth_func := p.synth_func
            master_volume := 1
            program_table := p.program_table }) := by
  constructor
  · intro t i ht hnone hmin hi
    have hs : searchIdle N p.recent_pitches p.next 0 N = some i := by
      subst hi
      have := searchIdle_found N p.recent_pitches p.next N 0 t ht
        (by simpa using hnone) (by intro u hu; simpa using hmin u hu)
      simpa using this
    simp only [MonoPlayer.on, MonoPlayer.find_next_state, MonoPlayer.claim_state, hs]
  · intro hall
    have hs : searchIdle N p.recent_pitches p.next 0 N = none :=
      searchIdle_exhausted N p.recent_pitches p.next N 0
        (fun t ht => by simpa using hall t ht)
    have hmem : p.recent_pitches p.next ≠ none := by
      have h0 := hall 0 hN
      rwa [Nat.add_zero, Nat.mod_eq_of_lt hnext] at h0
    obtain ⟨old, hold⟩ : ∃ o, p.recent_pitches p.next = some o := by
      cases h : p.recent_pitches p.next with
      | none => exact absurd h hmem
      | some o => exact ⟨o, rfl⟩
    refine ⟨old, hold, ?_⟩
    simp only [MonoPlayer.on, MonoPlayer.find_next_state, MonoPlayer.claim_state,
      MonoPlayer.release, hs, hold, Function.update_same, Function.update_idem]

/-- Witness for C1: on a fresh two-voice pool, `on(60, 100)` claims slot
0 and moves the cursor to 1. -/
theorem on_claims_slot_witness :
    MonoPlayer.on (fun n => (n : ℚ)) (MonoPlayer.new 2 (fun _ => 5)) 60 100 =
      { states := Function.update (MonoPlayer.new 2 (fun _ => 5)).states 0
          (((MonoPlayer.new 2 (fun _ => 5)).states 0).on (fun n => (n : ℚ)) 60 100)
        next := 1 % 2
        pitch2state := Function.update
          (MonoPlayer.new 2 (fun _ => 5)).pitch2state 60 (some 0)
        recent_pitches := Function.update
          (MonoPlayer.new 2 (fun _ => 5)).recent_pitches 0 (some 60)
        synth_func := (MonoPlayer.new 2 (fun _ => 5)).synth_func
        master_volume := 1
        program_table := (MonoPlayer.new 2 (fun _ => 5)).program_table } :=
  (on_claims_slot (fun n => (n : ℚ)) (MonoPlayer.new 2 (fun _ => 5)) 60 100
    (by decide) (by decide)).1 0 0 (by decide) rfl
    (fun u hu => absurd hu (Nat.not_lt_zero u)) rfl

/-- C2: `off(pitch)` releases the mapped slot only when that slot's
recent pitch still equals `pitch`; the pitch-map entry is removed
whenever it exists; with no entry, nothing changes; when the guard fails
(e.g. a stolen slot), the slot's voice states — its gate included — are
untouched. -/
theorem off_guarded (p : MonoPlayer N) (pitch : ℕ) :
    (p.pitch2state pitch = none → p.off pitch = p) ∧
    (∀ i, p.pitch2state pitch = some i → p.recent_pitches i = some pitch →
      p.off pitch =
        { p with
          states := Function.update p.states i (p.states i).off
          recent_pitches := Function.update p.recent_pitches i none
          pitch2state := Function.update p.pitch2state pitch none }) ∧
    (∀ i, p.pitch2state pitch = some i → p.recent_pitches i ≠ some pitch →
      p.off pitch =
        { p with pitch2state := Function.update p.pitch2state pitch none }) := by
  refine ⟨?_, ?_, ?_⟩
  · intro h
    simp only [MonoPlayer.off, h]
  · intro i hi hr
    simp only [MonoPlayer.off, hi, hr, if_pos, MonoPlayer.release]
  · intro i hi hr
    simp only [MonoPlayer.off, hi, if_neg hr]

/-- Witness for C2: `off` for an unmapped pitch on a fresh pool is a
no-op. -/
theorem off_guarded_witness :
    (MonoPlayer.new 3 (fun _ => 0)).off 60 = MonoPlayer.new 3 (fun _ => 0) :=
  (off_guarded (MonoPlayer.new 3 (fun _ => 0)) 60).1 rfl

/-- Every warm-up message is one of the two velocity-0 messages at note
0. -/
theorem mem_warm_up {M : ℕ} {m : SynthMsg} (h : m ∈ warm_up M) :
    m = ⟨MidiMsg.noteOn 0 0, Speaker.both⟩ ∨
      m = ⟨MidiMsg.noteOff 0 0, Speaker.both⟩ := by
  unfold warm_up at h
  rw [List.mem_flatten] at h
  obtain ⟨l, hl, hm⟩ := h
  rw [List.eq_of_mem_replicate hl] at hm
  simpa using hm

/-- The warm-up queue holds `2 * N` messages: `N` NoteOn/NoteOff pairs. -/
theorem warm_up_length (M : ℕ) : (warm_up M).length = 2 * M := by
  induction M with
  | zero => rfl
  | succ M ih =>
    simp only [warm_up, List.replicate_succ, List.flatten_cons,
      List.length_append, List.length_cons, List.length_nil] at *
    omega

/-- Decoding any warm-up message on a fresh player changes nothing and
relays nothing: velocity-0 NoteOn routes to `off(0)`, which is a no-op on
an empty pitch map. -/
theorem decode_fresh_warm (hz bf : ℕ → ℚ) (table : ℕ → ℕ) {M : ℕ}
    (m : SynthMsg) (hm : m ∈ warm_up M) :
    (StereoPlayer.new M table).decode hz bf m.speaker m.msg =
      (StereoPlayer.new M table, none) := by
  rcases mem_warm_up hm with h | h <;> subst h <;> rfl

/-- Applying any messages drawn from the warm-up queue to a fresh player
leaves it fresh. -/
theorem apply_fresh_warm (hz bf : ℕ → ℚ) (table : ℕ → ℕ) {M : ℕ} :
    ∀ (pre : List SynthMsg), (∀ m ∈ pre, m ∈ warm_up M) →
      apply_msgs hz bf (StereoPlayer.new M table) pre =
        StereoPlayer.new M table := by
  intro pre
  induction pre with
  | nil => intro _; rfl
  | cons m t ih =>
    intro h
    have hm := h m (List.mem_cons_self m t)
    show apply_msgs hz bf
      ((StereoPlayer.new M table).decode hz bf m.speaker m.msg).1 t =
        StereoPlayer.new M table
    rw [decode_fresh_warm hz bf table m hm]
    exact ih (fun x hx => h x (List.mem_cons_of_mem m hx))

/-- C3 (against the code): the render loop does push `N` synthetic
NoteOn/NoteOff pairs at pitch 0, velocity 0 — but processing any prefix
of them leaves a fresh player exactly unchanged: no slot is ever claimed
and every gate stays 0, because the velocity-0 NoteOn decodes as a
NoteOff for the unbound pitch 0. -/
theorem warm_up_messages_are_noops (M : ℕ) (hz bf : ℕ → ℚ) (table : ℕ → ℕ)
    (pre post : List SynthMsg) (h : warm_up M = pre ++ post) :
    (warm_up M).length = 2 * M ∧
    apply_msgs hz bf (StereoPlayer.new M table) pre = StereoPlayer.new M table ∧
    (∀ i,
      ((apply_msgs hz bf (StereoPlayer.new M table) pre).left.states i).control
        = 0 ∧
      ((apply_msgs hz bf (StereoPlayer.new M table) pre).right.states i).control
        = 0) := by
  have hsub : ∀ m ∈ pre, m ∈ warm_up M := by
    intro m hm
    rw [h]
    exact List.mem_append_left post hm
  have happ := apply_fresh_warm hz bf table pre hsub
  refine ⟨warm_up_length M, happ, ?_⟩
  intro i
  rw [happ]
  exact ⟨rfl, rfl⟩

/-- Witness for C3: processing the whole warm-up queue for `N = 1` leaves
the fresh player unchanged. -/
theorem warm_up_messages_are_noops_witness :
    apply_msgs (fun _ => 0) (fun _ => 0) (StereoPlayer.new 1 (fun _ => 0))
      (warm_up 1) = StereoPlayer.new 1 (fun _ => 0) :=
  (warm_up_messages_are_noops 1 (fun _ => 0) (fun _ => 0) (fun _ => 0)
    (warm_up 1) [] (List.append_nil (warm_up 1)).symm).2.1

/-- `release` does not touch the master volume. -/
theorem release_master (p : MonoPlayer N) (i : ℕ) :
    (p.release i).master_volume = p.master_volume := rfl

/-- `off` does not touch the master volume. -/
theorem off_master (p : MonoPlayer N) (n : ℕ) :
    (p.off n).master_volume = p.master_volume := by
  rcases h : p.pitch2state n with _ | i
  · simp [MonoPlayer.off, h]
  · simp only [MonoPlayer.off, h]
    split_ifs <;> rfl

/-- `release_all` does not touch the master volume. -/
theorem release_all_master (p : MonoPlayer N) :
    p.release_all.master_volume = p.master_volume := by
  unfold MonoPlayer.release_all
  generalize List.range N = l
  induction l generalizing p with
  | nil => rfl
  | cons j t ih =>
    rw [List.foldl_cons]
    exact (ih (p.release j)).trans (release_master p j)

/-- `find_next_state` does not touch the master volume. -/
theorem find_next_state_master (p : MonoPlayer N) :
    (p.find_next_state).2.master_volume = p.master_volume := by
  unfold MonoPlayer.find_next_state
  split
  · rfl
  · split
    · rfl
    · rfl

/-- `on` always leaves the master volume at 1. -/
theorem on_master (hz : ℕ → ℚ) (p : MonoPlayer N) (n v : ℕ) :
    (p.on hz n v).master_volume = 1 := by
  simp [MonoPlayer.on, find_next_state_master]

/-- C5: a ProgramChange hard-mutes (master volume 0) before installing
the new render function, the new function is the single pool-wide
`synth_func` used at every slot, and the master volume then reads 0
under every message that does not run `on` — until a NoteOn with nonzero
velocity sets it back to 1. -/
theorem program_change_mutes (hz bf : ℕ → ℚ) (p : MonoPlayer N) (prog : ℕ) :
    (p.decode hz bf (MidiMsg.programChange prog) =
      ({ p.all_sounds_off with synth_func := p.program_table prog },
        some RelayedMessage.synthChange)) ∧
    (p.all_sounds_off.master_volume = 0) ∧
    ((p.decode hz bf (MidiMsg.programChange prog)).1.master_volume = 0) ∧
    (∀ i j, ((p.change_synth (p.program_table prog)).sound_at i).1 =
      ((p.change_synth (p.program_table prog)).sound_at j).1) ∧
    (∀ (q : MonoPlayer N) (msg : MidiMsg), q.master_volume = 0 →
      (∀ n v, msg = MidiMsg.noteOn n v → v = 0) →
      ((q.decode hz bf msg).1).master_volume = 0) ∧
    (∀ (q : MonoPlayer N) (n v : ℕ), v ≠ 0 →
      ((q.decode hz bf (MidiMsg.noteOn n v)).1).master_volume = 1) := by
  refine ⟨rfl, rfl, rfl, fun i j => rfl, ?_, ?_⟩
  · intro q msg hq hmsg
    cases msg with
    | noteOn n v =>
      have hv : v = 0 := hmsg n v rfl
      subst hv
      show (q.off n).master_volume = 0
      rw [off_master]
      exact hq
    | noteOff n v =>
      show (q.off n).master_volume = 0
      rw [off_master]
      exact hq
    | pitchBend b => exact hq
    | programChange prog2 => rfl
    | allNotesOff =>
      show q.release_all.master_volume = 0
      rw [release_all_master]
      exact hq
    | allSoundOff => rfl
    | systemReset => exact hq
    | other => exact hq
  · intro q n v hv
    simp only [MonoPlayer.decode, if_neg hv]
    exact on_master hz q n v

/-- Witness for C5: after a program change, a NoteOn with velocity 100
restores the master volume to 1. -/
theorem program_change_mutes_witness :
    (((MonoPlayer.new 2 (fun k => k)).change_synth 7).decode (fun _ => 0)
      (fun _ => 0) (MidiMsg.noteOn 60 100)).1.master_volume = 1 :=
  (program_change_mutes (fun _ => 0) (fun _ => 0) (MonoPlayer.new 2 (fun k => k))
    3).2.2.2.2.2 ((MonoPlayer.new 2 (fun k => k)).change_synth 7) 60 100
    (by decide)

/-- `s.off` is idempotent. -/
theorem SharedMidiState.off_off (s : SharedMidiState) : s.off.off = s.off := rfl

/-- No message of the list decodes to a relayed result when applied in
sequence from `sp`. -/
def no_relay (hz bf : ℕ → ℚ) : StereoPlayer N → List SynthMsg → Prop
  | _, [] => True
  | sp, m :: rest =>
    (sp.decode hz bf m.speaker m.msg).2 = none ∧
    no_relay hz bf (sp.decode hz bf m.speaker m.msg).1 rest

/-- `handle_messages` returns exactly at the first message that decodes
to a relayed result: the consumed prefix decodes to no relay, the
returned state and relay come from that one message, and the suffix is
untouched. -/
theorem handle_messages_spec (hz bf : ℕ → ℚ) :
    ∀ (msgs : List SynthMsg) (sp sp' : StereoPlayer N) (r : RelayedMessage)
      (rest : List SynthMsg),
      StereoPlayer.handle_messages hz bf sp msgs = some (sp', r, rest) →
      ∃ pre m, msgs = pre ++ m :: rest ∧ no_relay hz bf sp pre ∧
        (apply_msgs hz bf sp pre).decode hz bf m.speaker m.msg =
          (sp', some r) := by
  intro msgs
  induction msgs with
  | nil => intro sp sp' r rest h; simp [StereoPlayer.handle_messages] at h
  | cons m t ih =>
    intro sp sp' r rest h
    rw [StereoPlayer.handle_messages] at h
    rcases hd : sp.decode hz bf m.speaker m.msg with ⟨sp1, ro⟩
    rw [hd] at h
    cases ro with
    | some rr =>
      simp only at h
      injection h with h
      injection h with h1 h2
      injection h2 with h2 h3
      subst h1; subst h2; subst h3
      exact ⟨[], m, rfl, trivial, hd⟩
    | none =>
      simp only at h
      obtain ⟨pre, m', heq, hnr, hdec⟩ := ih sp1 sp' r rest h
      refine ⟨m :: pre, m', by rw [heq]; rfl, ?_, ?_⟩
      · show (sp.decode hz bf m.speaker m.msg).2 = none ∧
          no_relay hz bf (sp.decode hz bf m.speaker m.msg).1 pre
        rw [hd]
        exact ⟨rfl, hnr⟩
      · show (apply_msgs hz bf
          ((sp.decode hz bf m.speaker m.msg).1) pre).decode hz bf
            m'.speaker m'.msg = (sp', some r)
        rw [hd]
        exact hdec

/-- C6: the message loop returns exactly when a popped message decodes to
a relayed result; a `SynthChange` makes `run_synth` open one further
stream before handling the remaining messages, while a `SystemReset`
ends `run_synth` with the single stream already opened and the remaining
messages unprocessed. -/
theorem message_loop_returns_on_relay (hz bf : ℕ → ℚ) (sp sp' : StereoPlayer N)
    (msgs rest : List SynthMsg) (r : RelayedMessage)
    (h : StereoPlayer.handle_messages hz bf sp msgs = some (sp', r, rest)) :
    (∃ pre m, msgs = pre ++ m :: rest ∧ no_relay hz bf sp pre ∧
      (apply_msgs hz bf sp pre).decode hz bf m.speaker m.msg =
        (sp', some r)) ∧
    (r = RelayedMessage.synthChange →
      StereoPlayer.run_synth hz bf sp msgs =
        ((StereoPlayer.run_synth hz bf sp' rest).1 + 1,
          (StereoPlayer.run_synth hz bf sp' rest).2)) ∧
    (r = RelayedMessage.systemReset →
      StereoPlayer.run_synth hz bf sp msgs = (1, some (sp', rest))) := by
  refine ⟨handle_messages_spec hz bf msgs sp sp' r rest h, ?_, ?_⟩
  · intro hr
    subst hr
    rw [StereoPlayer.run_synth.eq_def]
    split
    · next heq =>
      rw [h] at heq
      exact Option.noConfusion heq
    · next sp1 rest1 heq =>
      rw [h] at heq
      simp at heq
    · next sp1 rest1 heq =>
      rw [h] at heq
      simp only [Option.some.injEq, Prod.mk.injEq] at heq
      obtain ⟨h1, _, h3⟩ := heq
      subst h1
      subst h3
      rfl
  · intro hr
    subst hr
    rw [StereoPlayer.run_synth.eq_def]
    split
    · next heq =>
      rw [h] at heq
      exact Option.noConfusion heq
    · next sp1 rest1 heq =>
      rw [h] at heq
      simp only [Option.some.injEq, Prod.mk.injEq] at heq
      obtain ⟨h1, _, h3⟩ := heq
      subst h1
      subst h3
      rfl
    · next sp1 rest1 heq =>
      rw [h] at heq
      simp at heq

/-- Witness for C6: a single SystemReset message ends the loop with one
stream opened and nothing further processed. -/
theorem message_loop_returns_on_relay_witness :
    StereoPlayer.run_synth (fun _ => 0) (fun _ => 0)
      (StereoPlayer.new 1 (fun _ => 0)) [⟨MidiMsg.systemReset, Speaker.both⟩] =
      (1, some (StereoPlayer.new 1 (fun _ => 0), [])) :=
  (message_loop_returns_on_relay (fun _ => 0) (fun _ => 0)
    (StereoPlayer.new 1 (fun _ => 0)) (StereoPlayer.new 1 (fun _ => 0))
    [⟨MidiMsg.systemReset, Speaker.both⟩] [] RelayedMessage.systemReset
    rfl).2.2 rfl

/-- C7: with identical pools, a `Both`-tagged message mutates both pools
identically; `Both` equals applying the message to the left pool and
then to the right; `Left` leaves the right pool untouched and `Right`
the left. -/
theorem routing_symmetry (hz bf : ℕ → ℚ) (sp : StereoPlayer N)
    (msg : MidiMsg) :
    (sp.left = sp.right →
      (sp.decode hz bf Speaker.both msg).1.left =
        (sp.decode hz bf Speaker.both msg).1.right) ∧
    ((sp.decode hz bf Speaker.both msg).1 =
      ((sp.decode hz bf Speaker.left msg).1.decode hz bf
        Speaker.right msg).1) ∧
    ((sp.decode hz bf Speaker.left msg).1.right = sp.right) ∧
    ((sp.decode hz bf Speaker.right msg).1.left = sp.left) := by
  refine ⟨?_, rfl, rfl, rfl⟩
  intro h
  show (sp.left.decode hz bf msg).1 = (sp.right.decode hz bf msg).1
  rw [h]

/-- Witness for C7: on a fresh stereo player, a `Both` NoteOn(60,100)
leaves the two pools equal. -/
theorem routing_symmetry_witness :
    ((StereoPlayer.new 2 (fun _ => 0)).decode (fun k => (k : ℚ)) (fun _ => 1)
      Speaker.both (MidiMsg.noteOn 60 100)).1.left =
    ((StereoPlayer.new 2 (fun _ => 0)).decode (fun k => (k : ℚ)) (fun _ => 1)
      Speaker.both (MidiMsg.noteOn 60 100)).1.right :=
  (routing_symmetry (fun k => (k : ℚ)) (fun _ => 1)
    (StereoPlayer.new 2 (fun _ => 0)) (MidiMsg.noteOn 60 100)).1 rfl

/-- The voice states after folding `release` over a list of slots:
listed slots are gated off, others untouched. -/
theorem foldl_release_states (l : List ℕ) :
    ∀ (p : MonoPlayer N) (i : ℕ),
      ((l.foldl (fun q j => q.release j) p).states i) =
        if i ∈ l then (p.states i).off else p.states i := by
  induction l with
  | nil => intro p i; simp
  | cons j t ih =>
    intro p i
    rw [List.foldl_cons, ih (p.release j) i]
    simp only [MonoPlayer.release, Function.update_apply, List.mem_cons]
    by_cases hij : i = j
    · subst hij
      by_cases hit : i ∈ t <;> simp [hit, SharedMidiState.off_off]
    · by_cases hit : i ∈ t <;> simp [hij, hit]

/-- The recent pitches after folding `release` over a list of slots:
listed slots are cleared, others untouched. -/
theorem foldl_release_recent (l : List ℕ) :
    ∀ (p : MonoPlayer N) (i : ℕ),
      ((l.foldl (fun q j => q.release j) p).recent_pitches i) =
        if i ∈ l then none else p.recent_pitches i := by
  induction l with
  | nil => intro p i; simp
  | cons j t ih =>
    intro p i
    rw [List.foldl_cons, ih (p.release j) i]
    simp only [MonoPlayer.release, Function.update_apply, List.mem_cons]
    by_cases hij : i = j
    · subst hij
      by_cases hit : i ∈ t <;> simp [hit]
    · by_cases hit : i ∈ t <;> simp [hij, hit]

/-- C8: AllNotesOff gates every slot to `-1` without touching the master
volume; AllSoundOff zeroes the master volume and changes nothing else —
every slot's gate, pitch, velocity, bend and recent pitch survive. -/
theorem all_off_variants (hz bf : ℕ → ℚ) (p : MonoPlayer N) :
    ((p.decode hz bf MidiMsg.allNotesOff).1.master_volume = p.master_volume) ∧
    (∀ i, i < N →
      ((p.decode hz bf MidiMsg.allNotesOff).1.states i).control = -1) ∧
    ((p.decode hz bf MidiMsg.allSoundOff).1 = { p with master_volume := 0 }) := by
  refine ⟨release_all_master p, ?_, rfl⟩
  intro i hi
  show (p.release_all.states i).control = -1
  rw [MonoPlayer.release_all, foldl_release_states]
  simp [List.mem_range, hi, SharedMidiState.off]

/-- Witness for C8: on a fresh four-voice pool, AllNotesOff gates slot 0
to `-1`. -/
theorem all_off_variants_witness :
    (((MonoPlayer.new 4 (fun _ => 0)).decode (fun _ => 0) (fun _ => 0)
      MidiMsg.allNotesOff).1.states 0).control = -1 :=
  (all_off_variants (fun _ => 0) (fun _ => 0)
    (MonoPlayer.new 4 (fun _ => 0))).2.1 0 (by decide)

/-- C9: a pitch-bend writes the same multiplier `bf b` into every slot —
idle or sounding — while preserving each slot's other signals, and
changes nothing else in the pool. -/
theorem bend_uniform (hz bf : ℕ → ℚ) (p : MonoPlayer N) (b : ℕ) :
    (∀ i, i < N → (p.decode hz bf (MidiMsg.pitchBend b)).1.states i =
      { p.states i with pitch_bend := bf b }) ∧
    (∀ i, ¬ i < N →
      (p.decode hz bf (MidiMsg.pitchBend b)).1.states i = p.states i) ∧
    (p.decode hz bf (MidiMsg.pitchBend b)).1.next = p.next ∧
    (p.decode hz bf (MidiMsg.pitchBend b)).1.pitch2state = p.pitch2state ∧
    (p.decode hz bf (MidiMsg.pitchBend b)).1.recent_pitches =
      p.recent_pitches ∧
    (p.decode hz bf (MidiMsg.pitchBend b)).1.synth_func = p.synth_func ∧
    (p.decode hz bf (MidiMsg.pitchBend b)).1.master_volume =
      p.master_volume ∧
    (p.decode hz bf (MidiMsg.pitchBend b)).2 = none := by
  refine ⟨?_, ?_, rfl, rfl, rfl, rfl, rfl, rfl⟩
  · intro i hi
    show (p.bend bf b).states i = _
    simp [MonoPlayer.bend, hi, SharedMidiState.bend]
  · intro i hi
    show (p.bend bf b).states i = _
    simp [MonoPlayer.bend, hi]

/-- Witness for C9: bend value 8192 writes multiplier 2 (for the chosen
factor function) into idle slot 2 of a fresh three-voice pool. -/
theorem bend_uniform_witness :
    ((MonoPlayer.new 3 (fun _ => 0)).decode (fun _ => 0) (fun _ => 2)
      (MidiMsg.pitchBend 8192)).1.states 2 =
      { (MonoPlayer.new 3 (fun _ => 0)).states 2 with pitch_bend := 2 } :=
  (bend_uniform (fun _ => 0) (fun _ => 2) (MonoPlayer.new 3 (fun _ => 0))
    8192).1 2 (by decide)
